import Mathlib

/-!
Verification of the factorization and partitioned-solve layer of
`rbf/linalg.py`.

The development has two embeddings of the module, at two granularities:

* a control-flow model (`Err`, `Eff`, the `_s`-suffixed functions):
  arrays are represented by their shapes, the external backends
  (LAPACK `dgetrf`/`dgetrs`/`dpotrf`/`dpotrs`/`dtrtrs`, SuperLU's
  `spilu`, and CHOLMOD) are parameters giving the outcome of one call,
  and every function returns the Python-level outcome together with
  the list of backend calls and warnings it emitted.  This captures
  the guard clauses, the exception flow, and which code path runs.

* a value model (the functions on `Matrix`): exact arithmetic over a
  field.  A backend triangular/LU/Cholesky solve is exact in exact
  arithmetic, so each backend `solve` is modelled by `backendSolve`,
  the unique exact solution `A⁻¹ *ᵥ b` written with the adjugate so
  that it is executable.  Factorizations produced by a backend are
  modelled by their documented contracts (for `dpotrf`:
  `L * Lᵀ = A` with `L` lower triangular; for CHOLMOD:
  `P * A * Pᵀ = L * D * Lᵀ` with `L` unit lower triangular), carried
  as hypotheses.  The `dpotrf` routine itself is additionally modelled
  by the executable recursion `cholAux`, which reads only the lower
  triangle of its input, as the LAPACK documentation specifies for
  `lower=True`; the square-root and logarithm primitives it needs are
  function parameters.
-/

set_option maxHeartbeats 1000000

namespace RBFLinalg

open Matrix

/-- Python exception classes raised by `rbf/linalg.py`:
`valueError` is `ValueError`, `linAlgError` is `np.linalg.LinAlgError`
(carrying its message), `cholmodNotPosDef` is
`cholmod.CholmodNotPositiveDefiniteError`, and `nameError msg` is the
`NameError` produced by referencing an unbound module-level name. -/
inductive Err where
  | valueError (msg : String)
  | linAlgError (msg : String)
  | cholmodNotPosDef
  | nameError (missing : String)
deriving DecidableEq, Repr

/-- Observable events of one call into the module: invocations of the
external backend routines, plus the degraded-mode warning emitted by
`warnings.warn(CHOLMOD_MSG)`. -/
inductive Eff where
  | dgetrf
  | dgetrs
  | dpotrf
  | dpotrs
  | dtrtrs
  | spilu
  | superluSolve
  | cholmodFactor
  | cholmodSolveA
  | cholmodSolveL
  | warnDegraded
deriving DecidableEq, Repr

/-- The message of the `np.linalg.LinAlgError` raised by both
partitioned-solver constructors when `B` has fewer rows than columns. -/
def blockSingularMsg : String :=
  "There are fewer rows than columns in B. This makes the block matrix singular, and its inverse cannot be computed."

/-- The message of the `np.linalg.LinAlgError` raised by `_cholesky`
when `dpotrf` reports a non-positive-definite leading minor. -/
def notPosDefMsg : String :=
  "The leading minor is not positive definite, and the factorization could not be completed."

/-- The message of the `ValueError` raised by the sparse `solve_L`
for a right-hand side that is neither one- nor two-dimensional. -/
def badDimMsg : String :=
  "b must be a one or two dimensional array"

/-- The message of the `ValueError` raised by f2py argument
marshalling when an array of rank greater than two is passed for the
rank-two right-hand-side argument of `dtrtrs`. -/
def rankTooBigMsg : String :=
  "too many axes: expected rank-2"

/-- An input matrix at shape granularity: a dense or scipy-sparse
square matrix of size `N`, as classified by `as_sparse_or_array`. -/
inductive MatIn where
  | dense (N : Nat)
  | sparse (N : Nat)
deriving DecidableEq, Repr

/-- Which branch a `Solver` / `PosDefSolver` instance took at
construction: the stored `self._solver` is a `_Dense*` or `_Sparse*`
object for a size-`N` system. -/
inductive BranchKind where
  | denseBr (N : Nat)
  | sparseBr (N : Nat)
deriving DecidableEq, Repr

/-- Shape-level model of `_lu(A)` for an `N`-by-`N` dense `A`: the
`(0, 0)` shape is short-circuited to empty factors before `dgetrf` is
reached; otherwise `dgetrf` runs and its outcome (success, or the
`ValueError`/`LinAlgError` raised from a nonzero `info`) is the
parameter `dgetrfOut`. -/
def lu_s (dgetrfOut : Except Err Unit) (N : Nat) :
    Except Err Unit × List Eff :=
  if N = 0 then (Except.ok (), [])
  else (dgetrfOut, [Eff.dgetrf])

/-- Shape-level model of `_solve_lu(fac, piv, b)`: a right-hand side
with any zero-length axis is short-circuited to `np.zeros(b.shape)`
before `dgetrs` is reached; otherwise `dgetrs` runs with outcome
`dgetrsOut` and the result has the shape of `b`. -/
def solve_lu_s (dgetrsOut : Except Err Unit) (bshape : List Nat) :
    Except Err (List Nat) × List Eff :=
  if 0 ∈ bshape then (Except.ok bshape, [])
  else (dgetrsOut.map fun _ => bshape, [Eff.dgetrs])

/-- Shape-level model of `_cholesky(A)`: the `(0, 0)` shape is
short-circuited before `dpotrf` is reached; otherwise `dpotrf` runs
with outcome `dpotrfOut`. -/
def cholesky_s (dpotrfOut : Except Err Unit) (N : Nat) :
    Except Err Unit × List Eff :=
  if N = 0 then (Except.ok (), [])
  else (dpotrfOut, [Eff.dpotrf])

/-- Shape-level model of `_solve_cholesky(L, b)`: zero-length axes of
`b` short-circuit to `np.zeros(b.shape)` before `dpotrs` is reached. -/
def solve_cholesky_s (dpotrsOut : Except Err Unit) (bshape : List Nat) :
    Except Err (List Nat) × List Eff :=
  if 0 ∈ bshape then (Except.ok bshape, [])
  else (dpotrsOut.map fun _ => bshape, [Eff.dpotrs])

/-- Shape-level model of `_solve_triangular(L, b)`: zero-length axes
of `b` short-circuit to `np.zeros(b.shape)` before `dtrtrs` is
reached; otherwise `dtrtrs` is called, whose f2py wrapper rejects a
right-hand side of rank greater than two with a `ValueError` during
argument marshalling (before any factorization work), and otherwise
has outcome `dtrtrsOut`. -/
def solve_triangular_s (dtrtrsOut : Except Err Unit) (bshape : List Nat) :
    Except Err (List Nat) × List Eff :=
  if 0 ∈ bshape then (Except.ok bshape, [])
  else if bshape.length ≤ 2 then (dtrtrsOut.map fun _ => bshape, [Eff.dtrtrs])
  else (Except.error (Err.valueError rankTooBigMsg), [])

/-- Shape-level model of `Solver.__init__`: a sparse input goes to
`_SparseSolver`, whose constructor calls `spla.spilu(A)`
unconditionally; a dense input goes to `_DenseSolver`, whose
constructor calls `_lu(A)`. -/
def Solver_init_s (spiluOut dgetrfOut : Except Err Unit) :
    MatIn → Except Err BranchKind × List Eff
  | MatIn.sparse N => (spiluOut.map fun _ => BranchKind.sparseBr N, [Eff.spilu])
  | MatIn.dense N =>
      ((lu_s dgetrfOut N).1.map fun _ => BranchKind.denseBr N,
        (lu_s dgetrfOut N).2)

/-- Shape-level model of `Solver.solve(b)`: the sparse branch calls
`self.factor.solve(b)` (SuperLU) unconditionally; the dense branch
calls `_solve_lu`. -/
def Solver_solve_s (superluOut dgetrsOut : Except Err Unit)
    (k : BranchKind) (bshape : List Nat) :
    Except Err (List Nat) × List Eff :=
  match k with
  | BranchKind.sparseBr _ => (superluOut.map fun _ => bshape, [Eff.superluSolve])
  | BranchKind.denseBr _ => solve_lu_s dgetrsOut bshape

/-- Shape-level model of `PosDefSolver.__init__`: a sparse input with
CHOLMOD available goes to `_SparsePosDefSolver`, whose constructor
calls `cholmod.cholesky(A)` unconditionally; a sparse input without
CHOLMOD first emits the degraded-mode warning, is converted to dense
by `A.toarray()`, and then takes the dense branch; a dense input goes
to `_DensePosDefSolver`, whose constructor calls `_cholesky(A)`. -/
def PosDefSolver_init_s (hasCholmod : Bool)
    (cholmodOut dpotrfOut : Except Err Unit) :
    MatIn → Except Err BranchKind × List Eff
  | MatIn.sparse N =>
      if hasCholmod then
        (cholmodOut.map fun _ => BranchKind.sparseBr N, [Eff.cholmodFactor])
      else
        ((cholesky_s dpotrfOut N).1.map fun _ => BranchKind.denseBr N,
          Eff.warnDegraded :: (cholesky_s dpotrfOut N).2)
  | MatIn.dense N =>
      ((cholesky_s dpotrfOut N).1.map fun _ => BranchKind.denseBr N,
        (cholesky_s dpotrfOut N).2)

/-- Shape-level model of `PosDefSolver.solve(b)`: the sparse branch
calls `self.factor.solve_A(b)` unconditionally; the dense branch calls
`_solve_cholesky`. -/
def PosDefSolver_solve_s (cholmodSolveOut dpotrsOut : Except Err Unit)
    (k : BranchKind) (bshape : List Nat) :
    Except Err (List Nat) × List Eff :=
  match k with
  | BranchKind.sparseBr _ => (cholmodSolveOut.map fun _ => bshape, [Eff.cholmodSolveA])
  | BranchKind.denseBr _ => solve_cholesky_s dpotrsOut bshape

/-- Shape-level model of `PosDefSolver.solve_L(b)`: the sparse branch
raises a `ValueError` for a right-hand side that is neither one- nor
two-dimensional before calling `self.factor.solve_L`; the dense branch
calls `_solve_triangular`. -/
def PosDefSolver_solve_L_s (cholmodSolveLOut dtrtrsOut : Except Err Unit)
    (k : BranchKind) (bshape : List Nat) :
    Except Err (List Nat) × List Eff :=
  match k with
  | BranchKind.sparseBr _ =>
      if bshape.length = 1 ∨ bshape.length = 2 then
        (cholmodSolveLOut.map fun _ => bshape, [Eff.cholmodSolveL])
      else (Except.error (Err.valueError badDimMsg), [])
  | BranchKind.denseBr _ => solve_triangular_s dtrtrsOut bshape

/-- Shape-level model of `is_positive_definite(A)`.  The function runs
`PosDefSolver(A).L()` inside a `try` block whose handler clause is the
tuple `(np.linalg.LinAlgError, cholmod.CholmodNotPositiveDefiniteError)`.
When an exception propagates out of the body, Python evaluates that
tuple to test the match; if the CHOLMOD import failed at module load
the name `cholmod` is unbound, so the evaluation itself raises
`NameError` regardless of which exception was in flight.  With CHOLMOD
available the tuple evaluates, a `LinAlgError` or
`CholmodNotPositiveDefiniteError` yields `False`, and any other
exception propagates. -/
def is_positive_definite_s (hasCholmod : Bool)
    (cholmodOut dpotrfOut : Except Err Unit) (A : MatIn) :
    Except Err Bool :=
  match (PosDefSolver_init_s hasCholmod cholmodOut dpotrfOut A).1 with
  | Except.ok _ => Except.ok true
  | Except.error e =>
      if hasCholmod then
        match e with
        | Err.linAlgError _ => Except.ok false
        | Err.cholmodNotPosDef => Except.ok false
        | _ => Except.error e
      else Except.error (Err.nameError "cholmod")

/-- Sequencing of two shape-level computations: run the first; on
success feed its value to the second and concatenate the emitted
effects; on an exception stop. -/
def seqRes {α β : Type} (r : Except Err α × List Eff)
    (f : α → Except Err β × List Eff) : Except Err β × List Eff :=
  match r with
  | (Except.ok a, es) => ((f a).1, es ++ (f a).2)
  | (Except.error e, es) => (Except.error e, es)

/-- The block matrix built by `PartitionedSolver.__init__` from an
`N`-by-`N` matrix `A` and an `N`-by-`p` dense `B`: it is `(N + p)` by
`(N + p)` and sparse exactly when `A` is sparse. -/
def concatBlock (A : MatIn) (p : Nat) : MatIn :=
  match A with
  | MatIn.dense N => MatIn.dense (N + p)
  | MatIn.sparse N => MatIn.sparse (N + p)

/-- Shape-level model of `PartitionedSolver.__init__(A, B)` where the
dense form of `B` has shape `(n, p)`: after the copy-free coercions of
`A` and `B` (which call no backend), the `n < p` check raises the
block-structure-singular `LinAlgError` before anything else; otherwise
the concatenated block matrix is built with numpy/scipy stacking (no
backend factorization) and handed to `Solver`. -/
def PartitionedSolver_init_s (spiluOut dgetrfOut : Except Err Unit)
    (A : MatIn) (n p : Nat) : Except Err BranchKind × List Eff :=
  if n < p then (Except.error (Err.linAlgError blockSingularMsg), [])
  else Solver_init_s spiluOut dgetrfOut (concatBlock A p)

/-- Shape-level model of `PartitionedPosDefSolver.__init__(A, B)` with
`B` of dense shape `(n, p)`: after the coercions, the `n < p` check
raises the block-structure-singular `LinAlgError` before anything
else; otherwise `A` is factored by a `PosDefSolver`, `AiB` is computed
by one solve against the `n`-by-`p` right-hand side `B`, and the dense
`p`-by-`p` Schur complement `B.T.dot(AiB)` (a numpy product, no
backend) is factored by a second `PosDefSolver`. -/
def PartitionedPosDefSolver_init_s (hasCholmod : Bool)
    (cholmodOut dpotrfOut cholmodSolveOut dpotrsOut : Except Err Unit)
    (A : MatIn) (n p : Nat) : Except Err Unit × List Eff :=
  if n < p then (Except.error (Err.linAlgError blockSingularMsg), [])
  else
    seqRes (PosDefSolver_init_s hasCholmod cholmodOut dpotrfOut A) fun k =>
      seqRes (PosDefSolver_solve_s cholmodSolveOut dpotrsOut k [n, p]) fun _ =>
        ((PosDefSolver_init_s hasCholmod cholmodOut dpotrfOut (MatIn.dense p)).1.map
            fun _ => (),
          (PosDefSolver_init_s hasCholmod cholmodOut dpotrfOut (MatIn.dense p)).2)

/-! ### Value-level model: exact arithmetic over a field -/

/-- Exact-arithmetic model of one backend solve (`dgetrs`, `dpotrs`,
`dtrtrs`, SuperLU's `solve`, CHOLMOD's `solve_A`/`solve_L`): the
solution of `A * x = b`, written with the adjugate so that the
definition is executable.  When `A` is invertible this equals
`A⁻¹ *ᵥ b`. -/
def backendSolve {ι : Type} [Fintype ι] [DecidableEq ι] {F : Type}
    [Field F] (A : Matrix ι ι F) (b : ι → F) : ι → F :=
  A.det⁻¹ • A.adjugate.mulVec b

/-- Exact-arithmetic model of a backend solve against a matrix
right-hand side, as in `A_solver.solve(B)` of
`PartitionedPosDefSolver.__init__`. -/
def backendSolveM {ι κ : Type} [Fintype ι] [DecidableEq ι] {F : Type}
    [Field F] (A : Matrix ι ι F) (B : Matrix ι κ F) : Matrix ι κ F :=
  A.det⁻¹ • (A.adjugate * B)

/-- Value-level model of `PartitionedSolver` (construction followed by
one `solve(a, b)`): build the block matrix
`C = [[A, B], [B.T, 0]]`, concatenate the right-hand sides, solve the
`(N+P)`-dimensional system once with the general LU solver, and split
the result into its first `N` and last `P` rows. -/
def PartitionedSolver_solve {n p : Type} [Fintype n] [Fintype p]
    [DecidableEq n] [DecidableEq p] {F : Type} [Field F]
    (A : Matrix n n F) (B : Matrix n p F) (a : n → F) (b : p → F) :
    (n → F) × (p → F) :=
  let C := Matrix.fromBlocks A B Bᵀ 0
  let xy := backendSolve C (Sum.elim a b)
  (fun i => xy (Sum.inl i), fun j => xy (Sum.inr j))

/-- Value-level model of `PartitionedPosDefSolver` (construction
followed by one `solve(a, b)`), transcribed from the source: the
stored state is `AiB = A_solver.solve(B)` and the factored Schur
complement `B.T.dot(AiB)`; the solve computes
`Eb = -BtAiB_solver.solve(b)`, `Db = -AiB.dot(Eb)`,
`Dta = BtAiB_solver.solve(AiB.T.dot(a))`,
`Ca = A_solver.solve(a) - AiB.dot(Dta)` and returns
`(Ca + Db, Dta + Eb)`. -/
def PartitionedPosDefSolver_solve {n p : Type} [Fintype n] [Fintype p]
    [DecidableEq n] [DecidableEq p] {F : Type} [Field F]
    (A : Matrix n n F) (B : Matrix n p F) (a : n → F) (b : p → F) :
    (n → F) × (p → F) :=
  let AiB := backendSolveM A B
  let Eb := -(backendSolve (Bᵀ * AiB) b)
  let Db := -(AiB.mulVec Eb)
  let Dta := backendSolve (Bᵀ * AiB) (AiBᵀ.mulVec a)
  let Ca := backendSolve A a - AiB.mulVec Dta
  (Ca + Db, Dta + Eb)

/-- Value-level model of `_SparsePosDefSolver.solve_L(b)` for a
one-dimensional right-hand side.  The stored permutation array
`self.p` is modelled by the permutation `σ` (`p[i] = σ i`), the stored
`self.d` by `d`, and `np.sqrt` by the parameter `sq`.  The source
computes `out = (1.0 / np.sqrt(self.d)) * self.factor.solve_L(b[self.p])`,
where `factor.solve_L` solves against the unit lower-triangular CHOLMOD
factor `Lf`. -/
def SparsePosDefSolver_solve_L {ι : Type} [Fintype ι] [DecidableEq ι]
    {F : Type} [Field F] (sq : F → F) (σ : Equiv.Perm ι) (d : ι → F)
    (Lf : Matrix ι ι F) (b : ι → F) : ι → F :=
  fun i => (sq (d i))⁻¹ * backendSolve Lf (fun k => b (σ k)) i

/-- The dense-convention lower-triangular factor of the sparse path:
the unit lower-triangular CHOLMOD factor `Lf`, un-permuted by the
inverse of the fill-reducing permutation and scaled on the right by
`diag(sqrt d)`, so that it satisfies `L * Lᵀ = A`. -/
def sparseDenseConventionL {ι : Type} [Fintype ι] [DecidableEq ι]
    {F : Type} [Field F] (sq : F → F) (σ : Equiv.Perm ι) (d : ι → F)
    (Lf : Matrix ι ι F) : Matrix ι ι F :=
  ((σ⁻¹).permMatrix F * Lf) * Matrix.diagonal fun i => sq (d i)

/-- Value-level model of `_SparsePosDefSolver.L()`: the CHOLMOD factor
with its rows un-permuted by `p_inv = np.argsort(self.p)`, that is,
row `i` of the result is row `σ⁻¹ i` of the backend factor. -/
def SparsePosDefSolver_L {ι : Type} [Fintype ι] [DecidableEq ι]
    {F : Type} [Field F] (σ : Equiv.Perm ι) (Lf : Matrix ι ι F) :
    Matrix ι ι F :=
  Lf.submatrix σ.symm id

/-- Value-level model of `_SparsePosDefSolver.log_det()`:
`np.sum(np.log(self.d))`, with `np.log` as the parameter `logF`. -/
def SparsePosDefSolver_log_det {ι : Type} [Fintype ι] {F : Type}
    [Field F] (logF : F → F) (d : ι → F) : F :=
  ∑ i, logF (d i)

/-- Value-level model of `_DensePosDefSolver.log_det()`:
`2 * np.sum(np.log(np.diag(self.chol)))`, with `np.log` as the
parameter `logF`. -/
def DensePosDefSolver_log_det {ι : Type} [Fintype ι] {F : Type}
    [Field F] (logF : F → F) (chol : Matrix ι ι F) : F :=
  2 * ∑ i, logF (chol i i)

/-- Value-level model of `_DensePosDefSolver.L()`: the stored `dpotrf`
factor itself. -/
def DensePosDefSolver_L {ι : Type} {F : Type}
    (chol : Matrix ι ι F) : Matrix ι ι F :=
  chol

/-- Executable model of the `dpotrf(lower=True)` recursion on
`Nat`-indexed entries, with the square-root primitive as the parameter
`sq`.  `cholAux sq a j i` is the entry in column `j`, row `i` of the
factor.  Following the LAPACK specification of `dpotrf` with
`uplo = 'L'` (and scipy's default `clean = 1`), only entries
`a i j` with `j ≤ i` of the input are ever read, and the strict upper
triangle of the output is zero. -/
def cholAux {F : Type} [Field F] (sq : F → F) (a : Nat → Nat → F) :
    Nat → Nat → F
  | j, i =>
    if i < j then 0
    else if i = j then
      sq (a j j - ∑ k ∈ (Finset.range j).attach, cholAux sq a k.1 j ^ 2)
    else
      (a i j - ∑ k ∈ (Finset.range j).attach,
          cholAux sq a k.1 i * cholAux sq a k.1 j) / cholAux sq a j j
termination_by j i => (j, i)
decreasing_by
  · exact Prod.Lex.left _ _ (Finset.mem_range.mp k.2)
  · exact Prod.Lex.left _ _ (Finset.mem_range.mp k.2)
  · exact Prod.Lex.left _ _ (Finset.mem_range.mp k.2)
  · exact Prod.Lex.right _ (by omega)

/-- Executable model of `_cholesky(A, lower=True)` on an `m`-by-`m`
matrix: the `cholAux` recursion applied to the entries of `A`
(out-of-range indices read as zero and are never used). -/
def dpotrfModel {F : Type} [Field F] (sq : F → F) {m : Nat}
    (A : Matrix (Fin m) (Fin m) F) : Matrix (Fin m) (Fin m) F :=
  Matrix.of fun i j =>
    cholAux sq
      (fun r c =>
        if hr : r < m then if hc : c < m then A ⟨r, hr⟩ ⟨c, hc⟩ else 0 else 0)
      j.1 i.1

/-- Value-level model of `_DensePosDefSolver.__init__` followed by
`solve(b)`: `dpotrs` performs a forward solve against the stored
factor `chol` and a backward solve against its transpose. -/
def DensePosDefSolver_solve {F : Type} [Field F] (sq : F → F) {m : Nat}
    (A : Matrix (Fin m) (Fin m) F) (b : Fin m → F) : Fin m → F :=
  backendSolve (dpotrfModel sq A)ᵀ (backendSolve (dpotrfModel sq A) b)

/-- Value-level model of `_DensePosDefSolver.__init__` followed by
`solve_L(b)`: `dtrtrs` solves against the stored factor. -/
def DensePosDefSolver_solve_L {F : Type} [Field F] (sq : F → F) {m : Nat}
    (A : Matrix (Fin m) (Fin m) F) (b : Fin m → F) : Fin m → F :=
  backendSolve (dpotrfModel sq A) b

/-! ### Helper lemmas -/

theorem backendSolve_eq {ι : Type} [Fintype ι] [DecidableEq ι] {F : Type}
    [Field F] (A : Matrix ι ι F) (b : ι → F) :
    backendSolve A b = A⁻¹.mulVec b := by
  rw [Matrix.inv_def, Ring.inverse_eq_inv, Matrix.smul_mulVec_assoc]
  rfl

theorem backendSolveM_eq {ι κ : Type} [Fintype ι] [DecidableEq ι] {F : Type}
    [Field F] (A : Matrix ι ι F) (B : Matrix ι κ F) :
    backendSolveM A B = A⁻¹ * B := by
  rw [Matrix.inv_def, Ring.inverse_eq_inv, Matrix.smul_mul]
  rfl

theorem mulVec_backendSolve {ι : Type} [Fintype ι] [DecidableEq ι] {F : Type}
    [Field F] {A : Matrix ι ι F} (h : IsUnit A.det) (b : ι → F) :
    A.mulVec (backendSolve A b) = b := by
  rw [backendSolve_eq, Matrix.mulVec_mulVec, Matrix.mul_nonsing_inv _ h,
    Matrix.one_mulVec]

theorem backendSolve_unique {ι : Type} [Fintype ι] [DecidableEq ι] {F : Type}
    [Field F] {A : Matrix ι ι F} {x b : ι → F} (h : IsUnit A.det)
    (hx : A.mulVec x = b) : backendSolve A b = x := by
  rw [backendSolve_eq, ← hx, Matrix.mulVec_mulVec, Matrix.nonsing_inv_mul _ h,
    Matrix.one_mulVec]

theorem permMatrix_transpose {ι : Type} [Fintype ι] [DecidableEq ι]
    {F : Type} [Field F] (σ : Equiv.Perm ι) :
    (σ.permMatrix F)ᵀ = (σ⁻¹).permMatrix F := by
  rw [Equiv.Perm.permMatrix, Equiv.Perm.permMatrix, ← PEquiv.toMatrix_symm,
    ← Equiv.toPEquiv_symm]
  rfl

theorem permMatrix_inv_mul {ι : Type} [Fintype ι] [DecidableEq ι]
    {F : Type} [Field F] (σ : Equiv.Perm ι) :
    (σ⁻¹).permMatrix F * σ.permMatrix F = 1 := by
  rw [Equiv.Perm.permMatrix, Equiv.Perm.permMatrix, ← PEquiv.toMatrix_trans,
    ← Equiv.toPEquiv_trans]
  show ((σ.symm.trans σ).toPEquiv.toMatrix : Matrix ι ι F) = 1
  rw [Equiv.symm_trans_self, Equiv.toPEquiv_refl, PEquiv.toMatrix_refl]

theorem permMatrix_mul_inv {ι : Type} [Fintype ι] [DecidableEq ι]
    {F : Type} [Field F] (σ : Equiv.Perm ι) :
    σ.permMatrix F * (σ⁻¹).permMatrix F = 1 := by
  have := permMatrix_inv_mul (F := F) σ⁻¹
  rwa [inv_inv] at this

theorem permMatrix_mulVec {ι : Type} [Fintype ι] [DecidableEq ι]
    {F : Type} [Field F] (σ : Equiv.Perm ι) (b : ι → F) :
    (σ.permMatrix F).mulVec b = fun i => b (σ i) := by
  ext i
  simp [Matrix.mulVec, Matrix.dotProduct, Equiv.Perm.permMatrix,
    PEquiv.toMatrix_apply, Equiv.toPEquiv_apply]

theorem permMatrix_mul_eq {ι κ : Type} [Fintype ι] [DecidableEq ι]
    {F : Type} [Field F] (σ : Equiv.Perm ι) (M : Matrix ι κ F) :
    σ.permMatrix F * M = M.submatrix σ id :=
  PEquiv.toPEquiv_mul_matrix σ M

theorem permMatrix_one {ι : Type} [Fintype ι] [DecidableEq ι]
    {F : Type} [Field F] :
    ((1 : Equiv.Perm ι).permMatrix F) = 1 := by
  rw [Equiv.Perm.permMatrix]
  show ((Equiv.refl ι).toPEquiv.toMatrix : Matrix ι ι F) = 1
  rw [Equiv.toPEquiv_refl, PEquiv.toMatrix_refl]

/-! ### Claim theorems -/

/-- C2: evaluation of `is_positive_definite` at the failing input.  On
an environment without CHOLMOD (`hasCholmod = false`), a well-formed
symmetric dense matrix that is not positive definite (so `dpotrf`
raises the not-positive-definite `LinAlgError`, e.g. `A = [[-1.0]]`)
makes `is_positive_definite` raise `NameError` — the handler clause
references the unbound name `cholmod` — instead of returning `False`.
With CHOLMOD available the same input returns `False` as the claim
describes. -/
theorem C2_is_positive_definite_name_error :
    is_positive_definite_s false (Except.ok ())
        (Except.error (Err.linAlgError notPosDefMsg)) (MatIn.dense 1)
      = Except.error (Err.nameError "cholmod")
    ∧ is_positive_definite_s true (Except.ok ())
        (Except.error (Err.linAlgError notPosDefMsg)) (MatIn.dense 1)
      = Except.ok false :=
  ⟨rfl, rfl⟩

/-- C3 counterexample: the claim asserts that a zero-size input
reaches no backend routine on the sparse path as well, but
`Solver` construction on a 0-by-0 sparse matrix calls `spla.spilu`
unconditionally (`_SparseSolver.__init__` has no zero-size guard). -/
theorem C3_sparse_zero_size_calls_backend :
    (Solver_init_s (Except.ok ()) (Except.ok ()) (MatIn.sparse 0)).2
      = [Eff.spilu] :=
  rfl

/-- C3 (amended): on the dense path, a 0-by-0 `A` yields a successful
construction with no backend call, and a right-hand side with any
zero-length axis short-circuits `solve`, `PosDefSolver.solve` and
`PosDefSolver.solve_L` to a zero-filled result of the same shape with
no backend call and no exception — for every possible backend
behavior.  On the sparse path, construction always delegates to the
backend (`spilu`, or `cholmod.cholesky` when CHOLMOD is available). -/
theorem C3_zero_size_short_circuit
    (spiluOut dgetrfOut superluOut dgetrsOut cholmodOut dpotrfOut
      dpotrsOut dtrtrsOut cholmodSolveOut cholmodSolveLOut : Except Err Unit)
    (hasCholmod : Bool) :
    Solver_init_s spiluOut dgetrfOut (MatIn.dense 0)
      = (Except.ok (BranchKind.denseBr 0), [])
    ∧ (∀ N bshape, 0 ∈ bshape →
        Solver_solve_s superluOut dgetrsOut (BranchKind.denseBr N) bshape
          = (Except.ok bshape, []))
    ∧ PosDefSolver_init_s hasCholmod cholmodOut dpotrfOut (MatIn.dense 0)
      = (Except.ok (BranchKind.denseBr 0), [])
    ∧ (∀ N bshape, 0 ∈ bshape →
        PosDefSolver_solve_s cholmodSolveOut dpotrsOut
            (BranchKind.denseBr N) bshape = (Except.ok bshape, [])
        ∧ PosDefSolver_solve_L_s cholmodSolveLOut dtrtrsOut
            (BranchKind.denseBr N) bshape = (Except.ok bshape, []))
    ∧ (∀ N, (Solver_init_s spiluOut dgetrfOut (MatIn.sparse N)).2
          = [Eff.spilu])
    ∧ (∀ N, (PosDefSolver_init_s true cholmodOut dpotrfOut
          (MatIn.sparse N)).2 = [Eff.cholmodFactor]) := by
  refine ⟨rfl, ?_, rfl, ?_, fun N => rfl, fun N => rfl⟩
  · intro N bshape hb
    simp [Solver_solve_s, solve_lu_s, hb]
  · intro N bshape hb
    constructor
    · simp [PosDefSolver_solve_s, solve_cholesky_s, hb]
    · simp [PosDefSolver_solve_L_s, solve_triangular_s, hb]

/-- Witness for `C3_zero_size_short_circuit` at concrete inputs. -/
theorem C3_zero_size_short_circuit_witness :
    ((0 : Nat) ∈ ([0] : List Nat)
      ∧ Solver_solve_s (Except.ok ()) (Except.ok ()) (BranchKind.denseBr 3) [0]
          = (Except.ok [0], []))
    ∧ ((0 : Nat) ∈ ([2, 0] : List Nat)
      ∧ PosDefSolver_solve_s (Except.ok ()) (Except.ok ())
            (BranchKind.denseBr 2) [2, 0] = (Except.ok [2, 0], [])
        ∧ PosDefSolver_solve_L_s (Except.ok ()) (Except.ok ())
            (BranchKind.denseBr 2) [2, 0] = (Except.ok [2, 0], [])) :=
  ⟨⟨by decide,
      (C3_zero_size_short_circuit (Except.ok ()) (Except.ok ()) (Except.ok ())
          (Except.ok ()) (Except.ok ()) (Except.ok ()) (Except.ok ())
          (Except.ok ()) (Except.ok ()) (Except.ok ()) true).2.1 3 [0]
        (by decide)⟩,
    ⟨by decide,
      (C3_zero_size_short_circuit (Except.ok ()) (Except.ok ()) (Except.ok ())
          (Except.ok ()) (Except.ok ()) (Except.ok ()) (Except.ok ())
          (Except.ok ()) (Except.ok ()) (Except.ok ()) true).2.2.2.1 2 [2, 0]
        (by decide)⟩⟩

/-- C4: for both partitioned solvers, a dense `B` of shape `(n, p)`
with `n < p` makes construction raise the block-structure-singular
`LinAlgError` with no backend call of any kind (no factorization of
`A`, of the concatenated block matrix, or of the Schur complement);
with `p ≤ n` the check passes and construction proceeds exactly as the
post-check pipeline does. -/
theorem C4_block_structure_singular
    (spiluOut dgetrfOut cholmodOut dpotrfOut cholmodSolveOut
      dpotrsOut : Except Err Unit)
    (hasCholmod : Bool) (A : MatIn) (n p : Nat) :
    (n < p →
      PartitionedSolver_init_s spiluOut dgetrfOut A n p
        = (Except.error (Err.linAlgError blockSingularMsg), [])
      ∧ PartitionedPosDefSolver_init_s hasCholmod cholmodOut dpotrfOut
          cholmodSolveOut dpotrsOut A n p
        = (Except.error (Err.linAlgError blockSingularMsg), []))
    ∧ (p ≤ n →
      PartitionedSolver_init_s spiluOut dgetrfOut A n p
        = Solver_init_s spiluOut dgetrfOut (concatBlock A p)
      ∧ PartitionedPosDefSolver_init_s hasCholmod cholmodOut dpotrfOut
          cholmodSolveOut dpotrsOut A n p
        = seqRes (PosDefSolver_init_s hasCholmod cholmodOut dpotrfOut A)
            fun k =>
              seqRes (PosDefSolver_solve_s cholmodSolveOut dpotrsOut k [n, p])
                fun _ =>
                  ((PosDefSolver_init_s hasCholmod cholmodOut dpotrfOut
                        (MatIn.dense p)).1.map fun _ => (),
                    (PosDefSolver_init_s hasCholmod cholmodOut dpotrfOut
                        (MatIn.dense p)).2)) := by
  constructor
  · intro h
    exact ⟨by simp [PartitionedSolver_init_s, h],
      by simp [PartitionedPosDefSolver_init_s, h]⟩
  · intro h
    exact ⟨by simp [PartitionedSolver_init_s, Nat.not_lt.mpr h],
      by simp [PartitionedPosDefSolver_init_s, Nat.not_lt.mpr h]⟩

/-- Witness for `C4_block_structure_singular`: with `n = 1 < 2 = p`
both constructors fail fast; with `n = 3 ≥ 2 = p` the check passes. -/
theorem C4_block_structure_singular_witness :
    (1 < 2
      ∧ PartitionedSolver_init_s (Except.ok ()) (Except.ok ())
            (MatIn.dense 1) 1 2
          = (Except.error (Err.linAlgError blockSingularMsg), [])
        ∧ PartitionedPosDefSolver_init_s true (Except.ok ()) (Except.ok ())
            (Except.ok ()) (Except.ok ()) (MatIn.dense 1) 1 2
          = (Except.error (Err.linAlgError blockSingularMsg), []))
    ∧ (2 ≤ 3
      ∧ PartitionedSolver_init_s (Except.ok ()) (Except.ok ())
            (MatIn.dense 3) 3 2
          = Solver_init_s (Except.ok ()) (Except.ok ())
              (concatBlock (MatIn.dense 3) 2)) :=
  ⟨⟨by decide,
      (C4_block_structure_singular (Except.ok ()) (Except.ok ()) (Except.ok ())
          (Except.ok ()) (Except.ok ()) (Except.ok ()) true (MatIn.dense 1)
          1 2).1 (by decide)⟩,
    ⟨by decide,
      ((C4_block_structure_singular (Except.ok ()) (Except.ok ()) (Except.ok ())
          (Except.ok ()) (Except.ok ()) (Except.ok ()) true (MatIn.dense 3)
          3 2).2 (by decide)).1⟩⟩

/-- C6: constructing `PosDefSolver` on a sparse matrix when the
sparse-Cholesky backend is unavailable produces exactly the dense-path
result on the densified matrix with the degraded-mode warning
prepended to the event log: the warning is emitted, is observable, and
never changes the outcome (in particular it never aborts — the
construction succeeds whenever the dense path does), and every
subsequent operation runs on the dense branch. -/
theorem C6_degraded_mode_fallback (cholmodOut dpotrfOut : Except Err Unit)
    (N : Nat) :
    PosDefSolver_init_s false cholmodOut dpotrfOut (MatIn.sparse N)
      = ((PosDefSolver_init_s false cholmodOut dpotrfOut (MatIn.dense N)).1,
          Eff.warnDegraded ::
            (PosDefSolver_init_s false cholmodOut dpotrfOut (MatIn.dense N)).2)
    ∧ Eff.warnDegraded
        ∈ (PosDefSolver_init_s false cholmodOut dpotrfOut (MatIn.sparse N)).2 := by
  constructor
  · rfl
  · simp [PosDefSolver_init_s]

/-- C5 counterexample: the claim asserts that every right-hand side of
more than two dimensions makes `solve_L` raise, but on the dense path
the zero-size guard of `_solve_triangular` runs first: the 3-D
right-hand side of shape `(0, 1, 2)` returns `np.zeros((0, 1, 2))`
without raising. -/
theorem C5_three_dim_zero_axis_no_raise :
    PosDefSolver_solve_L_s (Except.ok ()) (Except.ok ())
        (BranchKind.denseBr 3) [0, 1, 2]
      = (Except.ok [0, 1, 2], []) :=
  rfl

/-- C1: for a symmetric positive-definite `A` and a non-singular block
system, `PartitionedSolver.solve` and `PartitionedPosDefSolver.solve`
return the same pair `(x, y)`.  In the exact-arithmetic model each
backend solve is exact, so the claimed agreement within solver
tolerance becomes equality. -/
theorem C1_partitioned_solvers_agree {N P : ℕ}
    (A : Matrix (Fin N) (Fin N) ℝ) (B : Matrix (Fin N) (Fin P) ℝ)
    (a : Fin N → ℝ) (b : Fin P → ℝ) (hA : A.PosDef)
    (hblk : IsUnit (Matrix.fromBlocks A B Bᵀ
        (0 : Matrix (Fin P) (Fin P) ℝ)).det) :
    PartitionedSolver_solve A B a b = PartitionedPosDefSolver_solve A B a b := by
  have hAdet : IsUnit A.det := hA.det_pos.ne'.isUnit
  have hsym : Aᵀ = A := by
    have h := hA.isHermitian
    rwa [Matrix.IsHermitian, Matrix.conjTranspose_eq_transpose_of_trivial] at h
  haveI : Invertible A := A.invertibleOfIsUnitDet hAdet
  -- the Schur complement is invertible because the block system is
  have hScdet : IsUnit (Bᵀ * (A⁻¹ * B)).det := by
    rw [Matrix.det_fromBlocks₁₁, Matrix.invOf_eq_nonsing_inv, zero_sub,
      Matrix.det_neg] at hblk
    rw [isUnit_iff_ne_zero]
    intro h0
    rw [Matrix.mul_assoc, h0, mul_zero, mul_zero] at hblk
    exact not_isUnit_zero hblk
  -- names for the stored state of the Schur-complement solver
  set AiB : Matrix (Fin N) (Fin P) ℝ := A⁻¹ * B with hAiB
  set Sc : Matrix (Fin P) (Fin P) ℝ := Bᵀ * AiB with hSc
  set Eb : Fin P → ℝ := -(backendSolve Sc b) with hEb
  set Dta : Fin P → ℝ := backendSolve Sc (AiBᵀ.mulVec a) with hDta
  set xv : Fin N → ℝ :=
    backendSolve A a - AiB.mulVec Dta + -(AiB.mulVec Eb) with hxv
  set yv : Fin P → ℝ := Dta + Eb with hyv
  -- `A * AiB = B`
  have hAAiB : ∀ v : Fin P → ℝ, A.mulVec (AiB.mulVec v) = B.mulVec v := by
    intro v
    rw [Matrix.mulVec_mulVec, hAiB, ← Matrix.mul_assoc,
      Matrix.mul_nonsing_inv _ hAdet, Matrix.one_mul]
  -- `Bᵀ * AiB = Sc`
  have hBtAiB : ∀ v : Fin P → ℝ, Bᵀ.mulVec (AiB.mulVec v) = Sc.mulVec v := by
    intro v
    rw [Matrix.mulVec_mulVec, hSc]
  -- the transposed stored block: `AiBᵀ = Bᵀ * A⁻¹`
  have hAiBt : AiBᵀ = Bᵀ * A⁻¹ := by
    rw [hAiB, Matrix.transpose_mul, Matrix.transpose_nonsing_inv, hsym]
  -- the candidate pair solves the block system
  have h1 : A.mulVec xv + B.mulVec yv = a := by
    rw [hxv, hyv, Matrix.mulVec_add, Matrix.mulVec_sub, Matrix.mulVec_neg,
      Matrix.mulVec_add, hAAiB, hAAiB, mulVec_backendSolve hAdet]
    abel
  have h2 : Bᵀ.mulVec xv
      + (0 : Matrix (Fin P) (Fin P) ℝ).mulVec yv = b := by
    rw [hxv, Matrix.zero_mulVec, add_zero, Matrix.mulVec_add,
      Matrix.mulVec_sub, Matrix.mulVec_neg, hBtAiB, hBtAiB, hDta,
      mulVec_backendSolve hScdet, hEb, Matrix.mulVec_neg,
      mulVec_backendSolve hScdet, hAiBt]
    have : Bᵀ.mulVec (backendSolve A a) = (Bᵀ * A⁻¹).mulVec a := by
      rw [backendSolve_eq, Matrix.mulVec_mulVec]
    rw [this]
    abel
  -- hence the one-shot block solve returns exactly that pair
  have hkey : backendSolve (Matrix.fromBlocks A B Bᵀ
      (0 : Matrix (Fin P) (Fin P) ℝ)) (Sum.elim a b) = Sum.elim xv yv := by
    refine backendSolve_unique hblk ?_
    rw [Matrix.fromBlocks_mulVec]
    have hl : Sum.elim xv yv ∘ Sum.inl = xv := rfl
    have hr : Sum.elim xv yv ∘ Sum.inr = yv := rfl
    rw [hl, hr, h1, h2]
  -- read both solvers' results off the definitions
  unfold PartitionedSolver_solve PartitionedPosDefSolver_solve
  rw [backendSolveM_eq]
  refine Prod.ext ?_ ?_
  · show (fun i => backendSolve (Matrix.fromBlocks A B Bᵀ 0)
        (Sum.elim a b) (Sum.inl i)) = _
    rw [hkey]
    rfl
  · show (fun j => backendSolve (Matrix.fromBlocks A B Bᵀ 0)
        (Sum.elim a b) (Sum.inr j)) = _
    rw [hkey]
    rfl

/-- Witness for `C1_partitioned_solvers_agree`: the concrete instance
`A = [[1]]`, `B = [[1]]`, `a = [2]`, `b = [3]`. -/
theorem C1_partitioned_solvers_agree_witness :
    Matrix.PosDef (1 : Matrix (Fin 1) (Fin 1) ℝ)
    ∧ IsUnit (Matrix.fromBlocks (1 : Matrix (Fin 1) (Fin 1) ℝ)
        (1 : Matrix (Fin 1) (Fin 1) ℝ) (1 : Matrix (Fin 1) (Fin 1) ℝ)ᵀ
        (0 : Matrix (Fin 1) (Fin 1) ℝ)).det
    ∧ PartitionedSolver_solve (1 : Matrix (Fin 1) (Fin 1) ℝ)
        (1 : Matrix (Fin 1) (Fin 1) ℝ) (fun _ => 2) (fun _ => 3)
      = PartitionedPosDefSolver_solve (1 : Matrix (Fin 1) (Fin 1) ℝ)
        (1 : Matrix (Fin 1) (Fin 1) ℝ) (fun _ => 2) (fun _ => 3) := by
  have hPD : Matrix.PosDef (1 : Matrix (Fin 1) (Fin 1) ℝ) := Matrix.PosDef.one
  have hU : IsUnit (Matrix.fromBlocks (1 : Matrix (Fin 1) (Fin 1) ℝ)
      (1 : Matrix (Fin 1) (Fin 1) ℝ) (1 : Matrix (Fin 1) (Fin 1) ℝ)ᵀ
      (0 : Matrix (Fin 1) (Fin 1) ℝ)).det := by
    rw [Matrix.transpose_one, Matrix.det_fromBlocks_one₁₁, Matrix.det_fin_one]
    norm_num [Matrix.sub_apply, Matrix.one_apply]
  exact ⟨hPD, hU,
    C1_partitioned_solvers_agree 1 1 (fun _ => 2) (fun _ => 3) hPD hU⟩

/-- C8: the factor returned by `L()` times its own transpose
reconstructs `A` on both backends.  The dense `dpotrf` contract is
`chol * cholᵀ = A`; the CHOLMOD contract is
`P * A * Pᵀ = Lf * Lfᵀ` for the fill-reducing permutation `σ`
(`P = σ.permMatrix`), and the sparse `L()` un-permutes the factor rows
by `argsort(p)`, i.e. by `σ⁻¹`, so the returned factor corresponds to
the original ordering of `A`.  In the exact model the claimed
reconstruction within tolerance becomes equality. -/
theorem C8_L_reconstructs_A {m : ℕ}
    (A chol : Matrix (Fin m) (Fin m) ℚ) (σ : Equiv.Perm (Fin m))
    (Lf : Matrix (Fin m) (Fin m) ℚ)
    (hdense : chol * cholᵀ = A)
    (hsparse : σ.permMatrix ℚ * A * (σ.permMatrix ℚ)ᵀ = Lf * Lfᵀ) :
    DensePosDefSolver_L chol * (DensePosDefSolver_L chol)ᵀ = A
    ∧ SparsePosDefSolver_L σ Lf * (SparsePosDefSolver_L σ Lf)ᵀ = A := by
  refine ⟨hdense, ?_⟩
  have hsub : SparsePosDefSolver_L σ Lf = (σ⁻¹).permMatrix ℚ * Lf := by
    rw [permMatrix_mul_eq]
    rfl
  rw [hsub, Matrix.transpose_mul, permMatrix_transpose, inv_inv]
  have hassoc : (σ⁻¹).permMatrix ℚ * Lf * (Lfᵀ * σ.permMatrix ℚ)
      = (σ⁻¹).permMatrix ℚ * (Lf * Lfᵀ) * σ.permMatrix ℚ := by
    rw [Matrix.mul_assoc, Matrix.mul_assoc, Matrix.mul_assoc]
  rw [hassoc, ← hsparse, permMatrix_transpose]
  simp only [← Matrix.mul_assoc]
  rw [permMatrix_inv_mul, Matrix.one_mul, Matrix.mul_assoc,
    permMatrix_inv_mul, Matrix.mul_one]

/-- Witness for `C8_L_reconstructs_A`: `A = [[4]]` with factor
`[[2]]` on both backends and the identity permutation. -/
theorem C8_L_reconstructs_A_witness :
    (Matrix.diagonal (fun _ : Fin 1 => (2 : ℚ))
        * (Matrix.diagonal (fun _ : Fin 1 => (2 : ℚ)))ᵀ
      = Matrix.diagonal (fun _ : Fin 1 => (4 : ℚ)))
    ∧ ((1 : Equiv.Perm (Fin 1)).permMatrix ℚ
          * Matrix.diagonal (fun _ : Fin 1 => (4 : ℚ))
          * ((1 : Equiv.Perm (Fin 1)).permMatrix ℚ)ᵀ
        = Matrix.diagonal (fun _ : Fin 1 => (2 : ℚ))
          * (Matrix.diagonal (fun _ : Fin 1 => (2 : ℚ)))ᵀ)
    ∧ DensePosDefSolver_L (Matrix.diagonal (fun _ : Fin 1 => (2 : ℚ)))
        * (DensePosDefSolver_L (Matrix.diagonal (fun _ : Fin 1 => (2 : ℚ))))ᵀ
      = Matrix.diagonal (fun _ : Fin 1 => (4 : ℚ))
    ∧ SparsePosDefSolver_L (1 : Equiv.Perm (Fin 1))
          (Matrix.diagonal (fun _ : Fin 1 => (2 : ℚ)))
        * (SparsePosDefSolver_L (1 : Equiv.Perm (Fin 1))
          (Matrix.diagonal (fun _ : Fin 1 => (2 : ℚ))))ᵀ
      = Matrix.diagonal (fun _ : Fin 1 => (4 : ℚ)) := by
  have hdense : Matrix.diagonal (fun _ : Fin 1 => (2 : ℚ))
      * (Matrix.diagonal (fun _ : Fin 1 => (2 : ℚ)))ᵀ
      = Matrix.diagonal (fun _ : Fin 1 => (4 : ℚ)) := by
    rw [Matrix.diagonal_transpose, Matrix.diagonal_mul_diagonal]
    norm_num
  have hsparse : (1 : Equiv.Perm (Fin 1)).permMatrix ℚ
      * Matrix.diagonal (fun _ : Fin 1 => (4 : ℚ))
      * ((1 : Equiv.Perm (Fin 1)).permMatrix ℚ)ᵀ
      = Matrix.diagonal (fun _ : Fin 1 => (2 : ℚ))
        * (Matrix.diagonal (fun _ : Fin 1 => (2 : ℚ)))ᵀ := by
    rw [permMatrix_one, Matrix.transpose_one, Matrix.one_mul, Matrix.mul_one,
      hdense]
  have h := C8_L_reconstructs_A (Matrix.diagonal (fun _ : Fin 1 => (4 : ℚ)))
    (Matrix.diagonal (fun _ : Fin 1 => (2 : ℚ))) (1 : Equiv.Perm (Fin 1))
    (Matrix.diagonal (fun _ : Fin 1 => (2 : ℚ))) hdense hsparse
  exact ⟨hdense, hsparse, h.1, h.2⟩

/-- C7: `log_det()` returns `2 * Σ log(diag(L))` on the dense path and
`Σ log(D)` on the sparse path (those are the definitions
`DensePosDefSolver_log_det` and `SparsePosDefSolver_log_det`), and
both equal `log(det(A))`.  The dense `dpotrf` contract supplies a
lower-triangular `L` with positive diagonal and `L * Lᵀ = A`; the
CHOLMOD contract supplies a unit lower-triangular `Lf`, a positive
`d`, and `P * A * Pᵀ = Lf * diag(d) * Lfᵀ`. -/
theorem C7_log_det_eq {m : ℕ}
    (A L : Matrix (Fin m) (Fin m) ℝ) (σ : Equiv.Perm (Fin m))
    (d : Fin m → ℝ) (Lf : Matrix (Fin m) (Fin m) ℝ)
    (hlowL : ∀ i j : Fin m, i < j → L i j = 0)
    (hdiagL : ∀ i, 0 < L i i)
    (hfacL : L * Lᵀ = A)
    (hlowf : ∀ i j : Fin m, i < j → Lf i j = 0)
    (honef : ∀ i, Lf i i = 1)
    (hdpos : ∀ i, 0 < d i)
    (hfacS : σ.permMatrix ℝ * A * (σ.permMatrix ℝ)ᵀ
        = Lf * Matrix.diagonal d * Lfᵀ) :
    DensePosDefSolver_log_det Real.log L = Real.log A.det
    ∧ SparsePosDefSolver_log_det Real.log d = Real.log A.det := by
  have hdetL : L.det = ∏ i, L i i :=
    Matrix.det_of_lowerTriangular L fun i j hij =>
      hlowL i j (OrderDual.toDual_lt_toDual.mp hij)
  have hdetf : Lf.det = 1 := by
    rw [Matrix.det_of_lowerTriangular Lf fun i j hij =>
      hlowf i j (OrderDual.toDual_lt_toDual.mp hij)]
    simp [honef]
  have hPP : Matrix.det (σ.permMatrix ℝ) * Matrix.det (σ.permMatrix ℝ)
      = 1 := by
    have h1 : σ.permMatrix ℝ * (σ.permMatrix ℝ)ᵀ = 1 := by
      rw [permMatrix_transpose]
      exact permMatrix_mul_inv σ
    have h2 := congrArg Matrix.det h1
    rwa [Matrix.det_mul, Matrix.det_transpose, Matrix.det_one] at h2
  constructor
  · have hdetA : A.det = (∏ i, L i i) ^ 2 := by
      rw [← hfacL, Matrix.det_mul, Matrix.det_transpose, hdetL]
      ring
    unfold DensePosDefSolver_log_det
    rw [hdetA, Real.log_pow, Real.log_prod _ _ fun i _ => (hdiagL i).ne']
    push_cast
    ring
  · have hPAP : (σ.permMatrix ℝ * A * (σ.permMatrix ℝ)ᵀ).det = A.det := by
      rw [Matrix.det_mul, Matrix.det_mul, Matrix.det_transpose]
      calc Matrix.det (σ.permMatrix ℝ) * A.det * Matrix.det (σ.permMatrix ℝ)
          = Matrix.det (σ.permMatrix ℝ) * Matrix.det (σ.permMatrix ℝ)
            * A.det := by ring
        _ = A.det := by rw [hPP, one_mul]
    have hdetA : A.det = ∏ i, d i := by
      rw [← hPAP, hfacS, Matrix.det_mul, Matrix.det_mul,
        Matrix.det_transpose, hdetf, Matrix.det_diagonal]
      ring
    unfold SparsePosDefSolver_log_det
    rw [hdetA, Real.log_prod _ _ fun i _ => (hdpos i).ne']

/-- Witness for `C7_log_det_eq`: `A = [[4]]`, dense factor `[[2]]`,
sparse factorization with identity permutation, `Lf = [[1]]`,
`D = [4]`. -/
theorem C7_log_det_eq_witness :
    ((∀ i j : Fin 1, i < j
        → Matrix.diagonal (fun _ : Fin 1 => (2 : ℝ)) i j = 0)
      ∧ (∀ i : Fin 1, 0 < Matrix.diagonal (fun _ : Fin 1 => (2 : ℝ)) i i)
      ∧ Matrix.diagonal (fun _ : Fin 1 => (2 : ℝ))
          * (Matrix.diagonal (fun _ : Fin 1 => (2 : ℝ)))ᵀ
        = Matrix.diagonal (fun _ : Fin 1 => (4 : ℝ))
      ∧ (∀ i : Fin 1, 0 < (fun _ : Fin 1 => (4 : ℝ)) i))
    ∧ DensePosDefSolver_log_det Real.log
        (Matrix.diagonal (fun _ : Fin 1 => (2 : ℝ)))
      = Real.log (Matrix.diagonal (fun _ : Fin 1 => (4 : ℝ))).det
    ∧ SparsePosDefSolver_log_det Real.log (fun _ : Fin 1 => (4 : ℝ))
      = Real.log (Matrix.diagonal (fun _ : Fin 1 => (4 : ℝ))).det := by
  have hlowL : ∀ i j : Fin 1, i < j
      → Matrix.diagonal (fun _ : Fin 1 => (2 : ℝ)) i j = 0 := by
    intro i j h
    fin_cases i
    fin_cases j
    exact absurd h (lt_irrefl _)
  have hdiagL : ∀ i : Fin 1,
      0 < Matrix.diagonal (fun _ : Fin 1 => (2 : ℝ)) i i := by
    intro i
    rw [Matrix.diagonal_apply_eq]
    norm_num
  have hfacL : Matrix.diagonal (fun _ : Fin 1 => (2 : ℝ))
      * (Matrix.diagonal (fun _ : Fin 1 => (2 : ℝ)))ᵀ
      = Matrix.diagonal (fun _ : Fin 1 => (4 : ℝ)) := by
    rw [Matrix.diagonal_transpose, Matrix.diagonal_mul_diagonal]
    norm_num
  have hlowf : ∀ i j : Fin 1, i < j
      → (1 : Matrix (Fin 1) (Fin 1) ℝ) i j = 0 := by
    intro i j h
    exact Matrix.one_apply_ne (ne_of_lt h)
  have hdpos : ∀ i : Fin 1, 0 < (fun _ : Fin 1 => (4 : ℝ)) i := by
    intro i
    norm_num
  have hfacS : (1 : Equiv.Perm (Fin 1)).permMatrix ℝ
      * Matrix.diagonal (fun _ : Fin 1 => (4 : ℝ))
      * ((1 : Equiv.Perm (Fin 1)).permMatrix ℝ)ᵀ
      = (1 : Matrix (Fin 1) (Fin 1) ℝ)
        * Matrix.diagonal (fun _ : Fin 1 => (4 : ℝ))
        * (1 : Matrix (Fin 1) (Fin 1) ℝ)ᵀ := by
    rw [permMatrix_one]
  have h := C7_log_det_eq (Matrix.diagonal (fun _ : Fin 1 => (4 : ℝ)))
    (Matrix.diagonal (fun _ : Fin 1 => (2 : ℝ))) (1 : Equiv.Perm (Fin 1))
    (fun _ : Fin 1 => (4 : ℝ)) (1 : Matrix (Fin 1) (Fin 1) ℝ)
    hlowL hdiagL hfacL hlowf (fun i => Matrix.one_apply_eq i) hdpos hfacS
  exact ⟨⟨hlowL, hdiagL, hfacL, hdpos⟩, h.1, h.2⟩

/-- C5 (amended): a right-hand side of more than two dimensions makes
`solve_L` raise a `ValueError` on the sparse path (its explicit
dimension check) and on the dense path whenever no axis is zero-length
(the `dtrtrs` wrapper rejects the rank); on the dense path a 3-D
right-hand side with a zero-length axis is instead caught by the
zero-size guard and returns zeros (see the counterexample).  For
admissible right-hand sides `solve_L` solves `L * x = b`: the dense
path solves against the `dpotrf` factor, and the sparse path (permute
`b` by `P`, solve the unit lower-triangular factor, scale each row by
`1/sqrt(D)`) solves against the dense-convention factor
`sparseDenseConventionL`, which satisfies `L * Lᵀ = A`. -/
theorem C5_solve_L_spec {m : ℕ}
    (cholmodSolveLOut dtrtrsOut : Except Err Unit)
    (sq : ℚ → ℚ) (A Lf : Matrix (Fin m) (Fin m) ℚ)
    (σ : Equiv.Perm (Fin m)) (d : Fin m → ℚ) (b : Fin m → ℚ)
    (hdetc : IsUnit (dpotrfModel sq A).det)
    (hlowf : ∀ i j : Fin m, i < j → Lf i j = 0)
    (honef : ∀ i, Lf i i = 1)
    (hsq : ∀ i, sq (d i) * sq (d i) = d i)
    (hnz : ∀ i, sq (d i) ≠ 0)
    (hfacS : σ.permMatrix ℚ * A * (σ.permMatrix ℚ)ᵀ
        = Lf * Matrix.diagonal d * Lfᵀ) :
    (∀ N bshape, 2 < bshape.length →
        PosDefSolver_solve_L_s cholmodSolveLOut dtrtrsOut
            (BranchKind.sparseBr N) bshape
          = (Except.error (Err.valueError badDimMsg), []))
    ∧ (∀ N bshape, 2 < bshape.length → 0 ∉ bshape →
        PosDefSolver_solve_L_s cholmodSolveLOut dtrtrsOut
            (BranchKind.denseBr N) bshape
          = (Except.error (Err.valueError rankTooBigMsg), []))
    ∧ (dpotrfModel sq A).mulVec (DensePosDefSolver_solve_L sq A b) = b
    ∧ sparseDenseConventionL sq σ d Lf
        * (sparseDenseConventionL sq σ d Lf)ᵀ = A
    ∧ (sparseDenseConventionL sq σ d Lf).mulVec
        (SparsePosDefSolver_solve_L sq σ d Lf b) = b := by
  have hdetf : IsUnit Lf.det := by
    rw [Matrix.det_of_lowerTriangular Lf fun i j hij =>
      hlowf i j (OrderDual.toDual_lt_toDual.mp hij)]
    simp [honef]
  have hSS : Matrix.diagonal (fun i => sq (d i))
      * Matrix.diagonal (fun i => sq (d i)) = Matrix.diagonal d := by
    rw [Matrix.diagonal_mul_diagonal]
    exact congrArg _ (funext hsq)
  have hA : A = (σ⁻¹).permMatrix ℚ * (Lf * Matrix.diagonal d * Lfᵀ)
      * σ.permMatrix ℚ := by
    rw [← hfacS, permMatrix_transpose]
    simp only [← Matrix.mul_assoc]
    rw [permMatrix_inv_mul, Matrix.one_mul, Matrix.mul_assoc,
      permMatrix_inv_mul, Matrix.mul_one]
  refine ⟨?_, ?_, ?_, ?_, ?_⟩
  · intro N bshape hlen
    simp [PosDefSolver_solve_L_s,
      show ¬(bshape.length = 1 ∨ bshape.length = 2) by omega]
  · intro N bshape hlen h0
    simp [PosDefSolver_solve_L_s, solve_triangular_s, h0,
      show ¬bshape.length ≤ 2 by omega]
  · exact mulVec_backendSolve hdetc b
  · unfold sparseDenseConventionL
    rw [hA]
    simp only [Matrix.transpose_mul, Matrix.diagonal_transpose,
      permMatrix_transpose, inv_inv, Matrix.mul_assoc]
    rw [← Matrix.mul_assoc (Matrix.diagonal fun i => sq (d i))
      (Matrix.diagonal fun i => sq (d i)), hSS]
  · unfold sparseDenseConventionL SparsePosDefSolver_solve_L
    have hS : (Matrix.diagonal fun i => sq (d i)).mulVec
        (fun i => (sq (d i))⁻¹ * backendSolve Lf (fun k => b (σ k)) i)
        = backendSolve Lf (fun k => b (σ k)) := by
      ext i
      rw [Matrix.mulVec_diagonal, ← mul_assoc, mul_inv_cancel₀ (hnz i),
        one_mul]
    rw [← Matrix.mulVec_mulVec, ← Matrix.mulVec_mulVec, hS,
      mulVec_backendSolve hdetf, ← permMatrix_mulVec σ b,
      Matrix.mulVec_mulVec, permMatrix_inv_mul, Matrix.one_mulVec]

/-- Witness for `C5_solve_L_spec`: `A = [[4]]`, identity permutation,
`Lf = [[1]]`, `D = [4]`, square root `2`, `b = [6]`. -/
theorem C5_solve_L_spec_witness :
    IsUnit (dpotrfModel (fun _ : ℚ => 2)
        (Matrix.diagonal fun _ : Fin 1 => (4 : ℚ))).det
    ∧ ((1 : Equiv.Perm (Fin 1)).permMatrix ℚ
          * Matrix.diagonal (fun _ : Fin 1 => (4 : ℚ))
          * ((1 : Equiv.Perm (Fin 1)).permMatrix ℚ)ᵀ
        = (1 : Matrix (Fin 1) (Fin 1) ℚ)
          * Matrix.diagonal (fun _ : Fin 1 => (4 : ℚ))
          * (1 : Matrix (Fin 1) (Fin 1) ℚ)ᵀ)
    ∧ (2 < ([1, 1, 2] : List Nat).length
      ∧ PosDefSolver_solve_L_s (Except.ok ()) (Except.ok ())
            (BranchKind.sparseBr 1) [1, 1, 2]
          = (Except.error (Err.valueError badDimMsg), []))
    ∧ (dpotrfModel (fun _ : ℚ => 2)
          (Matrix.diagonal fun _ : Fin 1 => (4 : ℚ))).mulVec
        (DensePosDefSolver_solve_L (fun _ : ℚ => 2)
          (Matrix.diagonal fun _ : Fin 1 => (4 : ℚ)) fun _ => 6)
      = (fun _ => 6)
    ∧ (sparseDenseConventionL (fun _ : ℚ => 2) (1 : Equiv.Perm (Fin 1))
          (fun _ => 4) (1 : Matrix (Fin 1) (Fin 1) ℚ)).mulVec
        (SparsePosDefSolver_solve_L (fun _ : ℚ => 2) (1 : Equiv.Perm (Fin 1))
          (fun _ => 4) (1 : Matrix (Fin 1) (Fin 1) ℚ) fun _ => 6)
      = (fun _ => 6) := by
  have hentry : dpotrfModel (fun _ : ℚ => 2)
      (Matrix.diagonal fun _ : Fin 1 => (4 : ℚ)) 0 0 = 2 := by
    simp [dpotrfModel, cholAux]
  have hdetc : IsUnit (dpotrfModel (fun _ : ℚ => 2)
      (Matrix.diagonal fun _ : Fin 1 => (4 : ℚ))).det := by
    rw [Matrix.det_fin_one, hentry]
    norm_num
  have hlowf : ∀ i j : Fin 1, i < j
      → (1 : Matrix (Fin 1) (Fin 1) ℚ) i j = 0 := by
    intro i j h
    exact Matrix.one_apply_ne (ne_of_lt h)
  have hsq : ∀ i : Fin 1,
      (fun _ : ℚ => (2 : ℚ)) ((fun _ : Fin 1 => (4 : ℚ)) i)
        * (fun _ : ℚ => (2 : ℚ)) ((fun _ : Fin 1 => (4 : ℚ)) i)
        = (fun _ : Fin 1 => (4 : ℚ)) i := by
    intro i
    norm_num
  have hnz : ∀ i : Fin 1,
      (fun _ : ℚ => (2 : ℚ)) ((fun _ : Fin 1 => (4 : ℚ)) i) ≠ 0 := by
    intro i
    norm_num
  have hfacS : (1 : Equiv.Perm (Fin 1)).permMatrix ℚ
      * Matrix.diagonal (fun _ : Fin 1 => (4 : ℚ))
      * ((1 : Equiv.Perm (Fin 1)).permMatrix ℚ)ᵀ
      = (1 : Matrix (Fin 1) (Fin 1) ℚ)
        * Matrix.diagonal (fun _ : Fin 1 => (4 : ℚ))
        * (1 : Matrix (Fin 1) (Fin 1) ℚ)ᵀ := by
    rw [permMatrix_one]
  have h := C5_solve_L_spec (Except.ok ()) (Except.ok ()) (fun _ : ℚ => 2)
    (Matrix.diagonal fun _ : Fin 1 => (4 : ℚ)) (1 : Matrix (Fin 1) (Fin 1) ℚ)
    (1 : Equiv.Perm (Fin 1)) (fun _ => 4) (fun _ => 6) hdetc hlowf
    (fun i => Matrix.one_apply_eq i) hsq hnz hfacS
  exact ⟨hdetc, hfacS, ⟨by decide, h.1 1 [1, 1, 2] (by decide)⟩,
    h.2.2.1, h.2.2.2.2⟩

/-- Entries of the `dpotrf` recursion depend only on the lower
triangle of the input: the recursion reads the input at `(j, j)` and
`(i, j)` with `j ≤ i` only. -/
theorem cholAux_congr {F : Type} [Field F] (sq : F → F)
    (a a' : Nat → Nat → F) (h : ∀ r c, c ≤ r → a r c = a' r c) :
    ∀ j i, cholAux sq a j i = cholAux sq a' j i := by
  intro j
  induction j using Nat.strong_induction_on with
  | _ j ihj =>
    intro i
    induction i using Nat.strong_induction_on with
    | _ i ihi =>
      rw [cholAux.eq_def (a := a), cholAux.eq_def (a := a')]
      by_cases h1 : i < j
      · simp only [if_pos h1]
      · by_cases h2 : i = j
        · simp only [if_neg h1, if_pos h2]
          have hsum : ∑ k ∈ (Finset.range j).attach,
              cholAux sq a k.1 j ^ 2
              = ∑ k ∈ (Finset.range j).attach, cholAux sq a' k.1 j ^ 2 :=
            Finset.sum_congr rfl fun k _ => by
              rw [ihj k.1 (Finset.mem_range.mp k.2) j]
          rw [h j j le_rfl, hsum]
        · simp only [if_neg h1, if_neg h2]
          have hji : j < i := by omega
          have hsum : ∑ k ∈ (Finset.range j).attach,
              cholAux sq a k.1 i * cholAux sq a k.1 j
              = ∑ k ∈ (Finset.range j).attach,
                cholAux sq a' k.1 i * cholAux sq a' k.1 j :=
            Finset.sum_congr rfl fun k _ => by
              rw [ihj k.1 (Finset.mem_range.mp k.2) i,
                ihj k.1 (Finset.mem_range.mp k.2) j]
          rw [h i j (le_of_not_lt h1), hsum, ihi j hji]

/-- C9: two dense inputs with the same lower triangle (diagonal
included) produce identical `dpotrf` factors, and hence identical
results of `solve`, `solve_L`, `L()` and `log_det()` on the dense
path: the upper triangle of the input never influences any output. -/
theorem C9_upper_triangle_irrelevant {m : ℕ} (sq logF : ℚ → ℚ)
    (A A' : Matrix (Fin m) (Fin m) ℚ)
    (h : ∀ i j : Fin m, (j : ℕ) ≤ (i : ℕ) → A i j = A' i j) :
    dpotrfModel sq A = dpotrfModel sq A'
    ∧ (∀ b, DensePosDefSolver_solve sq A b = DensePosDefSolver_solve sq A' b)
    ∧ (∀ b, DensePosDefSolver_solve_L sq A b
        = DensePosDefSolver_solve_L sq A' b)
    ∧ DensePosDefSolver_L (dpotrfModel sq A)
      = DensePosDefSolver_L (dpotrfModel sq A')
    ∧ DensePosDefSolver_log_det logF (dpotrfModel sq A)
      = DensePosDefSolver_log_det logF (dpotrfModel sq A') := by
  have hkey : dpotrfModel sq A = dpotrfModel sq A' := by
    ext i j
    unfold dpotrfModel
    refine cholAux_congr sq _ _ (fun r c hrc => ?_) j.1 i.1
    by_cases hr : r < m
    · by_cases hc : c < m
      · simp only [dif_pos hr, dif_pos hc]
        exact h ⟨r, hr⟩ ⟨c, hc⟩ hrc
      · simp only [dif_pos hr, dif_neg hc]
    · simp only [dif_neg hr]
  refine ⟨hkey, ?_, ?_, ?_, ?_⟩
  · intro b
    unfold DensePosDefSolver_solve
    rw [hkey]
  · intro b
    unfold DensePosDefSolver_solve_L
    rw [hkey]
  · unfold DensePosDefSolver_L
    rw [hkey]
  · unfold DensePosDefSolver_log_det
    rw [hkey]

/-- Witness for `C9_upper_triangle_irrelevant`: two matrices equal on
the lower triangle and different in the strict upper triangle. -/
theorem C9_upper_triangle_irrelevant_witness :
    (∀ i j : Fin 2, (j : ℕ) ≤ (i : ℕ)
      → (Matrix.of ![![(1 : ℚ), 5], ![2, 3]]) i j
        = (Matrix.of ![![(1 : ℚ), 7], ![2, 3]]) i j)
    ∧ dpotrfModel (fun q : ℚ => q) (Matrix.of ![![(1 : ℚ), 5], ![2, 3]])
      = dpotrfModel (fun q : ℚ => q) (Matrix.of ![![(1 : ℚ), 7], ![2, 3]])
    ∧ DensePosDefSolver_log_det (fun q : ℚ => q)
        (dpotrfModel (fun q : ℚ => q) (Matrix.of ![![(1 : ℚ), 5], ![2, 3]]))
      = DensePosDefSolver_log_det (fun q : ℚ => q)
        (dpotrfModel (fun q : ℚ => q)
          (Matrix.of ![![(1 : ℚ), 7], ![2, 3]])) := by
  have hlow : ∀ i j : Fin 2, (j : ℕ) ≤ (i : ℕ)
      → (Matrix.of ![![(1 : ℚ), 5], ![2, 3]]) i j
        = (Matrix.of ![![(1 : ℚ), 7], ![2, 3]]) i j := by
    decide
  have h := C9_upper_triangle_irrelevant (fun q : ℚ => q) (fun q : ℚ => q)
    (Matrix.of ![![(1 : ℚ), 5], ![2, 3]])
    (Matrix.of ![![(1 : ℚ), 7], ![2, 3]]) hlow
  exact ⟨hlow, h.1, h.2.2.2.2⟩

end RBFLinalg
